import Mathlib

/-!
Verification of the per-user encrypted credential store, the secrets routes,
the bulk migration tool, and the conversation ownership validator of the
GPT-DrKhayal repository (an OpenHands fork).

The Python sources are shallowly embedded:
* dictionaries become association lists (`dictGet` reads the first matching
  key, `dictInsert` replaces in place or appends, exactly Python `dict`
  semantics for unique-key dicts);
* external primitives (SHA-256, AES-GCM, base64, `json.dumps`/`json.loads`
  of a token mapping) are opaque parameters bundled in `ExternalPrims`;
  the theorems assume only their documented round-trip contracts;
* exceptions become `Option`/explicit result values.
-/

namespace OpenHands

/-- Bytes are modelled as lists of naturals (`bytes` values in Python). -/
abbrev Bytes := List Nat

/-- A provider credential as it appears in the persisted JSON record and in
the request models: a `token` string and a `host` string.  Python treats a
missing/`None` host like the empty string under truthiness, so both are
modelled as the empty string. -/
structure ProviderToken where
  token : String
  host : String
deriving DecidableEq, Repr

/-- A Python `dict` keyed by strings, as an association list. -/
abbrev Dict (α : Type) := List (String × α)

/-- `d.get(k)`: the value at the first matching key, if any. -/
def dictGet {α : Type} : Dict α → String → Option α
  | [], _ => none
  | kv :: rest, k => if kv.1 = k then some kv.2 else dictGet rest k

/-- `d[k] = v`: replace the value at an existing key in place, otherwise
append the new binding at the end (Python dict assignment). -/
def dictInsert {α : Type} : Dict α → String → α → Dict α
  | [], k, v => [(k, v)]
  | kv :: rest, k, v =>
      if kv.1 = k then (k, v) :: rest else kv :: dictInsert rest k v

/-- The provider-token portion of a record: `dict[str, {token, host}]`. -/
abbrev TokenDict := Dict ProviderToken

theorem dictGet_insert {α : Type} (d : Dict α) (k : String) (v : α)
    (k' : String) :
    dictGet (dictInsert d k v) k' = if k' = k then some v else dictGet d k' := by
  induction d with
  | nil => by_cases h : k' = k <;> simp [dictInsert, dictGet, h, Ne.symm]
  | cons kv rest ih =>
      by_cases hk : kv.1 = k
      · by_cases h : k' = k
        · simp [dictInsert, dictGet, hk, h]
        · have hne : ¬kv.1 = k' := fun hh => h ((hk.symm.trans hh).symm)
          have hne' : ¬k = k' := fun hh => h hh.symm
          simp [dictInsert, dictGet, hk, h, hne, hne']
      · by_cases h : kv.1 = k'
        · have hne : ¬k' = k := fun hh => hk (h.trans hh)
          simp [dictInsert, dictGet, hk, h, hne]
        · simp [dictInsert, dictGet, hk, h, ih]

theorem dictGet_append_of_none {α : Type} (d₁ d₂ : Dict α) (k : String)
    (h : dictGet d₁ k = none) :
    dictGet (d₁ ++ d₂) k = dictGet d₂ k := by
  induction d₁ with
  | nil => simp
  | cons kv rest ih =>
      by_cases hk : kv.1 = k
      · simp [dictGet, hk] at h
      · simp [dictGet, hk] at h ⊢
        exact ih h

/-! ## Merge of incoming provider tokens into the existing ones
(`store_provider_tokens` in `openhands/server/routes/secrets.py`).

The handler starts from `merged_tokens = dict(user_secrets.provider_tokens)`
and iterates over the incoming items; for a provider already present it
keeps the existing token when the incoming token is falsy and keeps the
existing host when the incoming host is falsy:

    token_to_use = existing.token if not incoming.token else incoming.token
    merged_tokens[provider] = incoming.model_copy(
        update={'token': token_to_use, 'host': incoming.host or existing.host})
-/

/-- One iteration of the merge loop body of `store_provider_tokens`. -/
def mergeStep (merged : TokenDict) (pi : String × ProviderToken) : TokenDict :=
  match dictGet merged pi.1 with
  | some ex =>
      dictInsert merged pi.1
        { token := if pi.2.token = "" then ex.token else pi.2.token
          host := if pi.2.host = "" then ex.host else pi.2.host }
  | none => dictInsert merged pi.1 pi.2

/-- The merge performed by `store_provider_tokens`: fold the loop body over
the incoming items, starting from a copy of the existing tokens. -/
def mergeProviderTokens (existing incoming : TokenDict) : TokenDict :=
  incoming.foldl mergeStep existing

theorem dictGet_mergeStep_ne (d : TokenDict) (pi : String × ProviderToken)
    (p : String) (h : p ≠ pi.1) :
    dictGet (mergeStep d pi) p = dictGet d p := by
  unfold mergeStep
  cases dictGet d pi.1 <;> simp [dictGet_insert, h]

theorem dictGet_foldl_not_mem (incoming : TokenDict) (acc : TokenDict)
    (p : String) (h : p ∉ incoming.map Prod.fst) :
    dictGet (incoming.foldl mergeStep acc) p = dictGet acc p := by
  induction incoming generalizing acc with
  | nil => rfl
  | cons qj rest ih =>
      simp only [List.map_cons, List.mem_cons] at h
      push_neg at h
      simp only [List.foldl_cons]
      rw [ih _ h.2, dictGet_mergeStep_ne _ _ _ h.1]

theorem dictGet_foldl_mem (incoming : TokenDict)
    (hnd : (incoming.map Prod.fst).Nodup) (acc : TokenDict) (p : String)
    (inc : ProviderToken) (hmem : (p, inc) ∈ incoming) :
    dictGet (incoming.foldl mergeStep acc) p =
      some (match dictGet acc p with
            | some ex =>
                { token := if inc.token = "" then ex.token else inc.token
                  host := if inc.host = "" then ex.host else inc.host }
            | none => inc) := by
  induction incoming generalizing acc with
  | nil => cases hmem
  | cons qj rest ih =>
      simp only [List.map_cons, List.nodup_cons] at hnd
      simp only [List.foldl_cons]
      rcases List.mem_cons.mp hmem with heq | hrest
      · subst heq
        have hnot : p ∉ rest.map Prod.fst := hnd.1
        rw [dictGet_foldl_not_mem _ _ _ hnot]
        unfold mergeStep
        cases hacc : dictGet acc p <;> simp [hacc, dictGet_insert]
      · have hne : p ≠ qj.1 := by
          intro hcontra
          exact hnd.1 (hcontra ▸ List.mem_map_of_mem Prod.fst hrest)
        rw [ih hnd.2 _ hrest, dictGet_mergeStep_ne _ _ _ hne]

/-! ## Envelope codec (`file_secrets_store.py`)

`_derive_key` turns the `SECRETS_ENC_KEY` passphrase into a 32-byte key via
SHA-256; `_encrypt_provider_tokens` serializes the token dict as JSON,
AES-GCM-encrypts it under a fresh 12-byte nonce and base64-encodes
`nonce ++ ciphertext`; `_decrypt_provider_tokens` inverts the pipeline.
SHA-256, AES-GCM, base64 and the JSON codec live in external libraries
(`hashlib`, `cryptography`, `base64`, `json`); they are modelled as opaque
function parameters, and each theorem assumes only the round-trip contracts
those libraries document, at the points where the code relies on them. -/

/-- The external primitives used by the envelope codec.  `aesDecrypt`
returns `none` on tag-verification failure, `b64decode` and
`jsonLoadsTokens` return `none` on malformed input (a Python exception). -/
structure ExternalPrims where
  sha256 : String → Bytes
  jsonDumpsTokens : TokenDict → Bytes
  jsonLoadsTokens : Bytes → Option TokenDict
  aesEncrypt : Bytes → Bytes → Bytes → Bytes
  aesDecrypt : Bytes → Bytes → Bytes → Option Bytes
  b64encode : Bytes → String
  b64decode : String → Option Bytes

/-- The function named derive underscore key in the source: `None` when the
`SECRETS_ENC_KEY` environment variable is unset or empty (Python truthiness
of `if not secret`), otherwise the SHA-256 digest of the passphrase. -/
def derive_key (sha256 : String → Bytes) (env : Option String) : Option Bytes :=
  match env with
  | none => none
  | some s => if s = "" then none else some (sha256 s)

/-- The encryption helper of the store.  It raises (here: `none`) when no
key can be derived or the crypto primitive is unavailable; otherwise it
JSON-serializes the token dict, encrypts it under the given nonce and
base64-encodes `nonce ++ ciphertext`.  The 12-byte nonce drawn from
`os.urandom(12)` is passed in explicitly. -/
def encryptProviderTokens (P : ExternalPrims) (cryptoAvailable : Bool)
    (env : Option String) (nonce : Bytes) (tokens : TokenDict) :
    Option String :=
  match derive_key P.sha256 env with
  | none => none
  | some key =>
      if cryptoAvailable = false then none
      else
        let data := P.jsonDumpsTokens tokens
        let ct := P.aesEncrypt key nonce data
        some (P.b64encode (nonce ++ ct))

/-- The decryption helper of the store: any failure (no key, no crypto
primitive, malformed base64, tag-verification failure, malformed JSON)
propagates as an exception, modelled as `none`.  The payload is split as
`payload[:12]` (nonce) and `payload[12:]` (ciphertext). -/
def decryptProviderTokens (P : ExternalPrims) (cryptoAvailable : Bool)
    (env : Option String) (encB64 : String) : Option TokenDict :=
  match derive_key P.sha256 env with
  | none => none
  | some key =>
      if cryptoAvailable = false then none
      else
        match P.b64decode encB64 with
        | none => none
        | some payload =>
            match P.aesDecrypt key (payload.take 12) (payload.drop 12) with
            | none => none
            | some pt => P.jsonLoadsTokens pt

/-! ## The secret store (`FileSecretsStore.load` / `FileSecretsStore.store`)

A `UserSecrets` aggregate holds the in-memory provider tokens and custom
secrets; a `SecretsRecord` is the persisted JSON object
(`provider_tokens_enc` and/or `provider_tokens` plus `custom_secrets`). -/

/-- A named custom secret: `CustomSecret(secret=..., description=...)`. -/
structure CustomSecret where
  secret : String
  description : String
deriving DecidableEq, Repr

/-- The `UserSecrets` aggregate: provider tokens plus named custom
secrets (other scalar fields of the Python model are not touched by any of
the operations verified here). -/
structure UserSecrets where
  provider_tokens : TokenDict
  custom_secrets : Dict CustomSecret
deriving DecidableEq, Repr

/-- `UserSecrets()`: the freshly constructed empty aggregate. -/
def emptyUserSecrets : UserSecrets := { provider_tokens := [], custom_secrets := [] }

/-- The persisted JSON record as read back by `json.loads`:
`provider_tokens_enc` is the optional envelope string, `provider_tokens`
the optional plaintext mapping. -/
structure SecretsRecord where
  provider_tokens_enc : Option String
  provider_tokens : Option TokenDict
  custom_secrets : Dict CustomSecret
deriving DecidableEq, Repr

/-- Entries with falsy tokens are dropped:
`{k: v for k, v in tokens.items() if v.get('token')}`. -/
def filterTokens (d : TokenDict) : TokenDict :=
  d.filter (fun kv => decide (kv.2.token ≠ ""))

/-- `FileSecretsStore.store`: when a key is derivable and the crypto
primitive is available, the (non-empty) provider tokens are sealed into
`provider_tokens_enc` and the plaintext field is popped from the record;
otherwise the plaintext mapping is written as-is (with a logged warning when
a key was requested but crypto is unavailable).  With a derivable key and an
available primitive `_encrypt_provider_tokens` always returns, so the
encrypted branch is total here. -/
def storeRecord (P : ExternalPrims) (cryptoAvailable : Bool)
    (env : Option String) (nonce : Bytes) (secrets : UserSecrets) :
    SecretsRecord :=
  if (derive_key P.sha256 env).isSome && cryptoAvailable then
    { provider_tokens_enc :=
        if secrets.provider_tokens.isEmpty then none
        else encryptProviderTokens P cryptoAvailable env nonce
               secrets.provider_tokens
      provider_tokens := none
      custom_secrets := secrets.custom_secrets }
  else
    { provider_tokens_enc := none
      provider_tokens := some secrets.provider_tokens
      custom_secrets := secrets.custom_secrets }

/-- `FileSecretsStore.load` on a record that was found and parsed: when a
truthy `provider_tokens_enc` is present its decryption replaces the
plaintext mapping (the empty mapping on decryption failure); then entries
with falsy tokens are filtered out.  The function is total: every failure
path inside the source is caught. -/
def loadRecord (P : ExternalPrims) (cryptoAvailable : Bool)
    (env : Option String) (rec : SecretsRecord) : UserSecrets :=
  let pt :=
    match rec.provider_tokens_enc with
    | some e =>
        if e = "" then rec.provider_tokens.getD []
        else
          match decryptProviderTokens P cryptoAvailable env e with
          | some tokens => tokens
          | none => []
    | none => rec.provider_tokens.getD []
  { provider_tokens := filterTokens pt
    custom_secrets := rec.custom_secrets }

/-! ## Bulk migration (`scripts/migrate_encrypt_secrets.py`)

The tool scans `users/*/secrets.json`, skips records that fail to read,
already carry a truthy `provider_tokens_enc`, or have no non-empty-token
entries; otherwise it encrypts, attempts a timestamped backup (a backup
failure only prints a warning), replaces `provider_tokens` with
`provider_tokens_enc` and rewrites the file.  An encryption failure returns
exit code 2, a write failure exit code 3; both stop the batch. -/

/-- One on-disk record together with the per-path environment behaviour:
whether `json.load` succeeds, whether the record already has a truthy
`provider_tokens_enc`, its plaintext tokens, and whether the backup copy,
the encryption call and the final write succeed for this path. -/
structure MigFile where
  readOk : Bool
  hasEnc : Bool
  provider_tokens : TokenDict
  backupOk : Bool
  encryptOk : Bool
  writeOk : Bool
deriving DecidableEq, Repr

/-- Outcome of processing one record. -/
inductive MigStep where
  | skipped
  | migrated
  | fatal (code : Nat)
deriving DecidableEq, Repr

/-- What one loop iteration did: the outcome, the file content afterwards,
and whether the timestamped backup file was created. -/
structure StepResult where
  outcome : MigStep
  newFile : MigFile
  backupCreated : Bool
deriving DecidableEq, Repr

/-- One iteration of the migration loop.  Note that a backup failure is
only warned about: the code falls through and still overwrites the record.
A failed final write leaves the file truncated by `open(p, 'w')`, so it no
longer parses. -/
def migrateOne (f : MigFile) : StepResult :=
  if f.readOk = false then ⟨.skipped, f, false⟩
  else if f.hasEnc then ⟨.skipped, f, false⟩
  else if filterTokens f.provider_tokens = [] then ⟨.skipped, f, false⟩
  else if f.encryptOk = false then ⟨.fatal 2, f, false⟩
  else if f.writeOk then
    ⟨.migrated, { f with hasEnc := true, provider_tokens := [] }, f.backupOk⟩
  else ⟨.fatal 3, { f with readOk := false }, f.backupOk⟩

/-- The batch loop of `main`: processes the files in order, counts migrated
and skipped records, and stops with the non-zero exit code at the first
fatal step, leaving the remaining files untouched.  Returns
`(exit code, migrated, skipped, resulting files)`. -/
def migrateRun : List MigFile → Nat → Nat → Nat × Nat × Nat × List MigFile
  | [], m, s => (0, m, s, [])
  | f :: rest, m, s =>
      match (migrateOne f).outcome with
      | .skipped =>
          let t := migrateRun rest m (s + 1)
          (t.1, t.2.1, t.2.2.1, (migrateOne f).newFile :: t.2.2.2)
      | .migrated =>
          let t := migrateRun rest (m + 1) s
          (t.1, t.2.1, t.2.2.1, (migrateOne f).newFile :: t.2.2.2)
      | .fatal c => (c, m, s, (migrateOne f).newFile :: rest)

/-! ## Conversation access validator (`conversation_validator.py`)

The metadata store is an association list from conversation id to metadata.
Cookie parsing (`SimpleCookie`) and JWT verification (`jwt.decode` with the
configured secret) live in external libraries and are passed in as opaque
functions; `get_default_conversation_title` lives outside the embedded
sources and is likewise a parameter.  The creation timestamp is not
modelled (no claim mentions it). -/

/-- `ConversationMetadata` as created by the validator (timestamp elided). -/
structure ConversationMetadata where
  conversation_id : String
  user_id : Option String
  title : String
  selected_repository : Option String
deriving DecidableEq, Repr

/-- The conversation metadata store, keyed by conversation id. -/
abbrev ConvStore := Dict ConversationMetadata

/-- Result of a `validate` call: success carrying the returned user id, or
the `ConnectionRefusedError('permission_denied')` raised on an ownership
mismatch. -/
inductive ValidateResult where
  | ok (user_id : Option String)
  | permissionDenied
deriving DecidableEq, Repr

/-- The underscore-ensure-metadata-exists helper shared by both validators:
look the conversation up; if absent, save a fresh record owned by the given
user id with a generated default title and no repository selected, and
return it.  Returns the metadata together with the (possibly extended)
store. -/
def ensureMetadataExists (titleFn : String → String) (st : ConvStore)
    (cid : String) (uid : Option String) :
    ConversationMetadata × ConvStore :=
  match dictGet st cid with
  | some m => (m, st)
  | none =>
      let m : ConversationMetadata :=
        { conversation_id := cid
          user_id := uid
          title := titleFn cid
          selected_repository := none }
      (m, st ++ [(cid, m)])

/-- `ConversationValidator.validate`, the default implementation: it sets
`user_id = None` without looking at the cookies, ensures the metadata
exists, and returns `metadata.user_id`.  It never raises. -/
def defaultValidate (titleFn : String → String) (st : ConvStore)
    (cid : String) (_cookiesStr : String) : ValidateResult × ConvStore :=
  let user_id : Option String := none
  let r := ensureMetadataExists titleFn st cid user_id
  (.ok r.1.user_id, r.2)

/-- `CookieConversationValidator.validate`: resolve the caller identity
from the session cookie (cookie parsing and JWT decoding are the opaque
parameters), ensure the metadata exists under that identity, deny when the
metadata has an owner different from the caller, otherwise return the
resolved identity. -/
def cookieValidate (titleFn : String → String)
    (parseCookie : String → Option String)
    (decodeSub : Option String → Option String) (st : ConvStore)
    (cid : String) (cookiesStr : String) : ValidateResult × ConvStore :=
  let token := parseCookie cookiesStr
  let user_id := decodeSub token
  let r := ensureMetadataExists titleFn st cid user_id
  if r.1.user_id ≠ none ∧ user_id ≠ r.1.user_id then
    (.permissionDenied, r.2)
  else
    (.ok user_id, r.2)

/-- The ownership contract of spec steps 3 to 5, for a validator paired
with the identity resolution it applies to the cookie header: an existing
owned conversation with a different caller identity is denied; an unowned
or same-owner conversation succeeds returning the caller identity; a
conversation with no metadata gets a record created, owned by the caller
identity. -/
def HonorsContract (resolve : String → Option String)
    (validate : ConvStore → String → String → ValidateResult × ConvStore) :
    Prop :=
  ∀ (st : ConvStore) (cid cookiesStr : String),
    ((∃ m, dictGet st cid = some m ∧ m.user_id ≠ none ∧
        resolve cookiesStr ≠ m.user_id) →
      (validate st cid cookiesStr).1 = .permissionDenied) ∧
    ((∀ m, dictGet st cid = some m →
        (m.user_id = none ∨ resolve cookiesStr = m.user_id)) →
      (validate st cid cookiesStr).1 = .ok (resolve cookiesStr)) ∧
    (dictGet st cid = none →
      ∃ m, dictGet (validate st cid cookiesStr).2 cid = some m ∧
        m.conversation_id = cid ∧ m.user_id = resolve cookiesStr)

/-! ## Listing of named secrets (`load_custom_secrets_names`) -/

/-- `load_custom_secrets_names`: with no stored secrets or an empty custom
mapping it returns the empty list, otherwise one `(name, description)`
item per custom secret — the model mirrors the response model
`CustomSecretWithoutValueModel`, which has no value field. -/
def loadCustomSecretsNames (us : Option UserSecrets) :
    List (String × String) :=
  match us with
  | none => []
  | some s =>
      if s.custom_secrets.isEmpty then []
      else s.custom_secrets.map (fun kv => (kv.1, kv.2.description))

/-! ## Concrete instances used by the witnesses -/

/-- A concrete instantiation of the external primitives, used to evaluate
the theorems on closed inputs. -/
def toyPrims : ExternalPrims where
  sha256 := fun _ => [0]
  jsonDumpsTokens := fun _ => []
  jsonLoadsTokens := fun _ => some []
  aesEncrypt := fun _ _ x => x
  aesDecrypt := fun _ _ x => some x
  b64encode := fun _ => "e"
  b64decode := fun _ => some (List.replicate 12 0)

/-- A concrete instantiation whose base64 decoding always fails, modelling
a corrupted envelope or rotated key. -/
def failPrims : ExternalPrims where
  sha256 := fun _ => [0]
  jsonDumpsTokens := fun _ => []
  jsonLoadsTokens := fun _ => some []
  aesEncrypt := fun _ _ x => x
  aesDecrypt := fun _ _ _ => none
  b64encode := fun _ => "e"
  b64decode := fun _ => none

/-! ## Claim theorems -/

/-- Claim C3: merging incoming provider credentials into an existing set
(the loop of `store_provider_tokens`) keeps the existing token when the
incoming token is empty and takes the incoming host when non-empty, for a
provider present in both; takes a provider present only in the incoming set
as-is; and preserves unchanged every provider present only in the existing
set.  The incoming items come from a Python dict, hence the distinct-keys
hypothesis. -/
theorem store_provider_tokens_merge_semantics
    (existing incoming : TokenDict)
    (hnd : (incoming.map Prod.fst).Nodup) (p : String) :
    (∀ inc ex, (p, inc) ∈ incoming → dictGet existing p = some ex →
      dictGet (mergeProviderTokens existing incoming) p =
        some { token := if inc.token = "" then ex.token else inc.token
               host := if inc.host = "" then ex.host else inc.host }) ∧
    (∀ inc, (p, inc) ∈ incoming → dictGet existing p = none →
      dictGet (mergeProviderTokens existing incoming) p = some inc) ∧
    (p ∉ incoming.map Prod.fst →
      dictGet (mergeProviderTokens existing incoming) p = dictGet existing p) := by
  refine ⟨?_, ?_, ?_⟩
  · intro inc ex hmem hex
    rw [mergeProviderTokens, dictGet_foldl_mem incoming hnd existing p inc hmem,
      hex]
  · intro inc hmem hnone
    rw [mergeProviderTokens, dictGet_foldl_mem incoming hnd existing p inc hmem,
      hnone]
  · intro h
    exact dictGet_foldl_not_mem incoming existing p h

/-- Evaluation of the merge-semantics theorem on a concrete pair of token
sets covering all three cases. -/
theorem store_provider_tokens_merge_semantics_witness :
    dictGet (mergeProviderTokens
        [("github", ⟨"a", "h1"⟩), ("gitlab", ⟨"b", "h2"⟩)]
        [("github", ⟨"", "h3"⟩), ("bitbucket", ⟨"c", ""⟩)]) "github" =
      some ⟨"a", "h3"⟩ ∧
    dictGet (mergeProviderTokens
        [("github", ⟨"a", "h1"⟩), ("gitlab", ⟨"b", "h2"⟩)]
        [("github", ⟨"", "h3"⟩), ("bitbucket", ⟨"c", ""⟩)]) "bitbucket" =
      some ⟨"c", ""⟩ ∧
    dictGet (mergeProviderTokens
        [("github", ⟨"a", "h1"⟩), ("gitlab", ⟨"b", "h2"⟩)]
        [("github", ⟨"", "h3"⟩), ("bitbucket", ⟨"c", ""⟩)]) "gitlab" =
      some ⟨"b", "h2"⟩ := by
  refine ⟨?_, ?_, ?_⟩
  · have h := (store_provider_tokens_merge_semantics
      [("github", ⟨"a", "h1"⟩), ("gitlab", ⟨"b", "h2"⟩)]
      [("github", ⟨"", "h3"⟩), ("bitbucket", ⟨"c", ""⟩)]
      (by decide) "github").1 ⟨"", "h3"⟩ ⟨"a", "h1"⟩ (by decide) (by decide)
    simpa using h
  · exact (store_provider_tokens_merge_semantics
      [("github", ⟨"a", "h1"⟩), ("gitlab", ⟨"b", "h2"⟩)]
      [("github", ⟨"", "h3"⟩), ("bitbucket", ⟨"c", ""⟩)]
      (by decide) "bitbucket").2.1 ⟨"c", ""⟩ (by decide) (by decide)
  · have h := (store_provider_tokens_merge_semantics
      [("github", ⟨"a", "h1"⟩), ("gitlab", ⟨"b", "h2"⟩)]
      [("github", ⟨"", "h3"⟩), ("bitbucket", ⟨"c", ""⟩)]
      (by decide) "gitlab").2.2 (by decide)
    simpa using h

/-- Claim C9: the listing of named secrets depends only on names and
descriptions — reassigning every secret value leaves the response
unchanged — and each returned item consists of the name and the
description only, never the secret value. -/
theorem load_custom_secrets_names_no_values (s : UserSecrets)
    (vals : String → String) :
    loadCustomSecretsNames (some { s with custom_secrets :=
        (s.custom_secrets.map
          (fun kv => (kv.1, { kv.2 with secret := vals kv.1 }))) }) =
      loadCustomSecretsNames (some s) ∧
    loadCustomSecretsNames (some s) =
      s.custom_secrets.map (fun kv => (kv.1, kv.2.description)) := by
  cases h : s.custom_secrets with
  | nil => simp [loadCustomSecretsNames, h]
  | cons a l =>
      constructor
      · simp [loadCustomSecretsNames, h, List.map_map, Function.comp]
      · simp [loadCustomSecretsNames, h]

/-- Claim C10: the unset-provider-tokens route stores a freshly constructed
empty `UserSecrets()`; loading the record it persisted yields no provider
credentials and no named secrets, in every persistence mode. -/
theorem unset_provider_tokens_clears_all (P : ExternalPrims)
    (crypto : Bool) (env : Option String) (nonce : Bytes) :
    loadRecord P crypto env (storeRecord P crypto env nonce emptyUserSecrets) =
      emptyUserSecrets := by
  by_cases h : (derive_key P.sha256 env).isSome && crypto <;>
    simp [storeRecord, loadRecord, emptyUserSecrets, filterTokens, h]

/-- Claim C4: when the stored record carries a truthy envelope and its
decryption fails, `load` does not raise; it returns a credential set with
empty provider credentials, and a plaintext `provider_tokens` field present
in the same record has no influence on the result. -/
theorem load_decrypt_failure_yields_empty (P : ExternalPrims)
    (crypto : Bool) (env : Option String) (rec : SecretsRecord) (e : String)
    (henc : rec.provider_tokens_enc = some e) (hne : e ≠ "")
    (hfail : decryptProviderTokens P crypto env e = none) :
    (loadRecord P crypto env rec).provider_tokens = [] ∧
    (∀ pt, loadRecord P crypto env { rec with provider_tokens := pt } =
      loadRecord P crypto env rec) := by
  constructor
  · simp [loadRecord, henc, hne, hfail, filterTokens]
  · intro pt
    simp [loadRecord, henc, hne, hfail]

/-- Evaluation of the decryption-failure theorem on a concrete record whose
envelope no longer decodes, with stale plaintext present alongside it. -/
theorem load_decrypt_failure_yields_empty_witness :
    (loadRecord failPrims true (some "k")
      { provider_tokens_enc := some "xx"
        provider_tokens := some [("github", ⟨"stale", "h"⟩)]
        custom_secrets := [] }).provider_tokens = [] ∧
    loadRecord failPrims true (some "k")
        { provider_tokens_enc := some "xx"
          provider_tokens := some [("gitlab", ⟨"other", "h2"⟩)]
          custom_secrets := [] } =
      loadRecord failPrims true (some "k")
        { provider_tokens_enc := some "xx"
          provider_tokens := some [("github", ⟨"stale", "h"⟩)]
          custom_secrets := [] } := by
  have h := load_decrypt_failure_yields_empty failPrims true (some "k")
    { provider_tokens_enc := some "xx"
      provider_tokens := some [("github", ⟨"stale", "h"⟩)]
      custom_secrets := [] } "xx" rfl (by decide) (by decide)
  exact ⟨h.1, h.2 (some [("gitlab", ⟨"other", "h2"⟩)])⟩

/-- Claim C6: a stored record never has both the envelope field and the
plaintext provider-token field present; and when a key is derivable and the
crypto primitive is available, the plaintext field is removed entirely. -/
theorem store_never_writes_both (P : ExternalPrims) (crypto : Bool)
    (env : Option String) (nonce : Bytes) (s : UserSecrets) :
    ¬((storeRecord P crypto env nonce s).provider_tokens_enc ≠ none ∧
      (storeRecord P crypto env nonce s).provider_tokens ≠ none) ∧
    ((derive_key P.sha256 env).isSome = true → crypto = true →
      (storeRecord P crypto env nonce s).provider_tokens = none) := by
  by_cases h : (derive_key P.sha256 env).isSome && crypto
  · constructor
    · simp [storeRecord, h]
    · intro _ _
      simp [storeRecord, h]
  · constructor
    · simp [storeRecord, h]
    · intro h1 h2
      exact absurd (by simp [h1, h2]) h

/-- Evaluation of the never-both theorem with a configured key and an
available primitive, on a non-empty token set. -/
theorem store_never_writes_both_witness :
    (storeRecord toyPrims true (some "k") (List.replicate 12 0)
      { provider_tokens := [("github", ⟨"t", "h"⟩)]
        custom_secrets := [] }).provider_tokens = none := by
  exact (store_never_writes_both toyPrims true (some "k")
    (List.replicate 12 0)
    { provider_tokens := [("github", ⟨"t", "h"⟩)]
      custom_secrets := [] }).2 (by decide) rfl

/-- Claim C2: sealing a provider-token mapping and opening the result with
the key derived from the same passphrase returns the original mapping.  The
hypotheses are the round-trip contracts of the external JSON, AES-GCM and
base64 primitives at the values the pipeline produces, plus the 12-byte
nonce produced by `os.urandom(12)`. -/
theorem encrypt_decrypt_roundtrip (P : ExternalPrims) (pass : String)
    (hpass : pass ≠ "") (nonce : Bytes) (hn : nonce.length = 12)
    (d : TokenDict)
    (hjson : P.jsonLoadsTokens (P.jsonDumpsTokens d) = some d)
    (haes : P.aesDecrypt (P.sha256 pass) nonce
        (P.aesEncrypt (P.sha256 pass) nonce (P.jsonDumpsTokens d)) =
      some (P.jsonDumpsTokens d))
    (hb64 : P.b64decode (P.b64encode
        (nonce ++ P.aesEncrypt (P.sha256 pass) nonce (P.jsonDumpsTokens d))) =
      some (nonce ++ P.aesEncrypt (P.sha256 pass) nonce (P.jsonDumpsTokens d))) :
    ∃ e, encryptProviderTokens P true (some pass) nonce d = some e ∧
      decryptProviderTokens P true (some pass) e = some d := by
  have hkey : derive_key P.sha256 (some pass) = some (P.sha256 pass) := by
    simp [derive_key, hpass]
  refine ⟨P.b64encode
    (nonce ++ P.aesEncrypt (P.sha256 pass) nonce (P.jsonDumpsTokens d)),
    ?_, ?_⟩
  · simp [encryptProviderTokens, hkey]
  · have htake : (nonce ++ P.aesEncrypt (P.sha256 pass) nonce
        (P.jsonDumpsTokens d)).take 12 = nonce := by
      rw [← hn]
      exact List.take_left _ _
    have hdrop : (nonce ++ P.aesEncrypt (P.sha256 pass) nonce
        (P.jsonDumpsTokens d)).drop 12 =
        P.aesEncrypt (P.sha256 pass) nonce (P.jsonDumpsTokens d) := by
      rw [← hn]
      exact List.drop_left _ _
    simp [decryptProviderTokens, hkey, hb64, htake, hdrop, haes, hjson]

/-- Evaluation of the round-trip theorem on a concrete passphrase, nonce
and token mapping, with concrete primitives satisfying the contracts at
those points. -/
theorem encrypt_decrypt_roundtrip_witness :
    ∃ e, encryptProviderTokens toyPrims true (some "k")
        (List.replicate 12 0) [] = some e ∧
      decryptProviderTokens toyPrims true (some "k") e = some [] := by
  exact encrypt_decrypt_roundtrip toyPrims "k" (by decide)
    (List.replicate 12 0) (by decide) [] (by decide) (by decide) (by decide)

theorem dictGet_eq_none_of_not_mem {α : Type} (d : Dict α) (p : String)
    (h : p ∉ d.map Prod.fst) : dictGet d p = none := by
  induction d with
  | nil => rfl
  | cons kv rest ih =>
      simp only [List.map_cons, List.mem_cons] at h
      push_neg at h
      have hne : ¬kv.1 = p := fun hh => h.1 hh.symm
      simp [dictGet, hne, ih h.2]

theorem dictGet_filterTokens_of_empty_token (d : TokenDict)
    (hnd : (d.map Prod.fst).Nodup) (p : String) (v : ProviderToken)
    (hp : dictGet d p = some v) (hv : v.token = "") :
    dictGet (filterTokens d) p = none := by
  induction d with
  | nil => cases hp
  | cons kv rest ih =>
      simp only [List.map_cons, List.nodup_cons] at hnd
      rw [filterTokens, List.filter_cons]
      by_cases hk : kv.1 = p
      · have hveq : kv.2 = v := by simpa [dictGet, hk] using hp
        have hdrop : decide (kv.2.token ≠ "") = false := by simp [hveq, hv]
        rw [hdrop]
        simp only [Bool.false_eq_true, if_false]
        apply dictGet_eq_none_of_not_mem
        intro hc
        apply hnd.1
        rcases List.mem_map.mp hc with ⟨kv', hkv', hfst⟩
        rw [hk]
        exact hfst ▸ List.mem_map_of_mem Prod.fst (List.filter_subset' rest hkv')
      · have hp' : dictGet rest p = some v := by simpa [dictGet, hk] using hp
        have hrec := ih hnd.2 hp'
        rw [filterTokens] at hrec
        by_cases hkeep : kv.2.token ≠ ""
        · simp [hkeep, dictGet, hk]
          simpa using hrec
        · have hkeq : kv.2.token = "" := not_not.mp hkeep
          simp [hkeq]
          simpa using hrec

theorem encrypt_total_of_key (P : ExternalPrims) (env : Option String)
    (nonce : Bytes) (d : TokenDict)
    (hkey : (derive_key P.sha256 env).isSome = true) :
    ∃ e, encryptProviderTokens P true env nonce d = some e := by
  rcases Option.isSome_iff_exists.mp hkey with ⟨k, hk⟩
  exact ⟨P.b64encode (nonce ++ P.aesEncrypt k nonce (P.jsonDumpsTokens d)),
    by simp [encryptProviderTokens, hk]⟩

/-- Claim C5: a provider entry with an empty token is never observable
after a store followed by a load — in the encrypted mode (assuming the
envelope round-trips) just as in the plaintext mode both are covered by
quantifying over key configuration and crypto availability. -/
theorem store_load_drops_empty_token (P : ExternalPrims) (crypto : Bool)
    (env : Option String) (nonce : Bytes) (s : UserSecrets) (p : String)
    (v : ProviderToken)
    (hnd : (s.provider_tokens.map Prod.fst).Nodup)
    (hp : dictGet s.provider_tokens p = some v) (hv : v.token = "")
    (hrt : match encryptProviderTokens P crypto env nonce s.provider_tokens with
           | some e =>
               decryptProviderTokens P crypto env e = some s.provider_tokens
           | none => True) :
    dictGet (loadRecord P crypto env
      (storeRecord P crypto env nonce s)).provider_tokens p = none := by
  have hfiltered := dictGet_filterTokens_of_empty_token s.provider_tokens hnd p v hp hv
  by_cases hkc : (derive_key P.sha256 env).isSome && crypto
  · have hkey : (derive_key P.sha256 env).isSome = true :=
      (Bool.and_eq_true _ _ ▸ hkc).1
    have hcr : crypto = true := (Bool.and_eq_true _ _ ▸ hkc).2
    subst hcr
    have hnotempty : ¬s.provider_tokens.isEmpty := by
      cases hpt : s.provider_tokens with
      | nil => rw [hpt] at hp; cases hp
      | cons a l => simp [hpt]
    rcases encrypt_total_of_key P env nonce s.provider_tokens hkey with ⟨e, he⟩
    rw [he] at hrt
    by_cases hestr : e = ""
    · simp [storeRecord, hkc, loadRecord, hnotempty, he, hestr, filterTokens]
      exact dictGet_eq_none_of_not_mem [] p (by simp)
    · simp only [storeRecord, hkc, if_true, loadRecord, hnotempty,
        Bool.false_eq_true, if_false, he, hestr, hrt]
      exact hfiltered
  · simp only [storeRecord, hkc, Bool.false_eq_true, if_false, loadRecord,
      Option.getD_some]
    exact hfiltered

/-- Evaluation of the empty-token theorem in the plaintext mode on a
concrete credential set holding one empty-token provider entry. -/
theorem store_load_drops_empty_token_witness :
    dictGet (loadRecord toyPrims false none
      (storeRecord toyPrims false none []
        { provider_tokens := [("github", ⟨"", "h"⟩)]
          custom_secrets := [] })).provider_tokens "github" = none := by
  exact store_load_drops_empty_token toyPrims false none []
    { provider_tokens := [("github", ⟨"", "h"⟩)], custom_secrets := [] }
    "github" ⟨"", "h"⟩ (by decide) (by decide) (by decide) trivial

/-! Helper lemmas about the migration loop. -/

theorem migrateOne_cases (f : MigFile) :
    migrateOne f = ⟨.skipped, f, false⟩ ∨
    (migrateOne f =
        ⟨.migrated, { f with hasEnc := true, provider_tokens := [] },
          f.backupOk⟩ ∧
      f.readOk = true ∧ f.hasEnc = false ∧ f.writeOk = true) ∨
    (∃ c, (migrateOne f).outcome = .fatal c ∧ (c = 2 ∨ c = 3)) := by
  cases hr : f.readOk with
  | false => left; simp [migrateOne, hr]
  | true =>
      cases he : f.hasEnc with
      | true => left; simp [migrateOne, hr, he]
      | false =>
          by_cases h3 : filterTokens f.provider_tokens = []
          · left; simp [migrateOne, hr, he, h3]
          · cases hk : f.encryptOk with
            | false =>
                right; right
                exact ⟨2, by simp [migrateOne, hr, he, h3, hk], Or.inl rfl⟩
            | true =>
                cases hw : f.writeOk with
                | true =>
                    right; left
                    exact ⟨by simp [migrateOne, hr, he, h3, hk, hw], rfl, rfl, rfl⟩
                | false =>
                    right; right
                    exact ⟨3, by simp [migrateOne, hr, he, h3, hk, hw], Or.inr rfl⟩

theorem migrateOne_migrated_then_skipped (f : MigFile)
    (h : (migrateOne f).outcome = .migrated) :
    migrateOne ((migrateOne f).newFile) =
      ⟨.skipped, (migrateOne f).newFile, false⟩ := by
  rcases migrateOne_cases f with hc | ⟨hc, hr, _, _⟩ | ⟨c, hc, _⟩
  · rw [hc] at h; cases h
  · rw [hc]; simp [migrateOne, hr]
  · rw [hc] at h; cases h

theorem migrateRun_skipped_exit (f : MigFile) (rest : List MigFile)
    (m s : Nat) (h : (migrateOne f).outcome = .skipped) :
    (migrateRun (f :: rest) m s).1 = (migrateRun rest m (s + 1)).1 := by
  simp only [migrateRun, h]

theorem migrateRun_skipped_migcount (f : MigFile) (rest : List MigFile)
    (m s : Nat) (h : (migrateOne f).outcome = .skipped) :
    (migrateRun (f :: rest) m s).2.1 = (migrateRun rest m (s + 1)).2.1 := by
  simp only [migrateRun, h]

theorem migrateRun_skipped_files (f : MigFile) (rest : List MigFile)
    (m s : Nat) (h : (migrateOne f).outcome = .skipped) :
    (migrateRun (f :: rest) m s).2.2.2 =
      (migrateOne f).newFile :: (migrateRun rest m (s + 1)).2.2.2 := by
  simp only [migrateRun, h]

theorem migrateRun_migrated_exit (f : MigFile) (rest : List MigFile)
    (m s : Nat) (h : (migrateOne f).outcome = .migrated) :
    (migrateRun (f :: rest) m s).1 = (migrateRun rest (m + 1) s).1 := by
  simp only [migrateRun, h]

theorem migrateRun_migrated_files (f : MigFile) (rest : List MigFile)
    (m s : Nat) (h : (migrateOne f).outcome = .migrated) :
    (migrateRun (f :: rest) m s).2.2.2 =
      (migrateOne f).newFile :: (migrateRun rest (m + 1) s).2.2.2 := by
  simp only [migrateRun, h]

theorem migrateRun_fatal_exit (f : MigFile) (rest : List MigFile)
    (m s c : Nat) (h : (migrateOne f).outcome = .fatal c) :
    (migrateRun (f :: rest) m s).1 = c := by
  simp only [migrateRun, h]

theorem migrateRun_cons_fatal (f : MigFile) (rest : List MigFile)
    (m s c : Nat) (h : (migrateOne f).outcome = .fatal c) :
    migrateRun (f :: rest) m s = (c, m, s, (migrateOne f).newFile :: rest) := by
  simp only [migrateRun, h]

theorem migrateRun_rerun (files : List MigFile) (m s : Nat)
    (h : (migrateRun files m s).1 = 0) (m' s' : Nat) :
    (migrateRun (migrateRun files m s).2.2.2 m' s').2.1 = m' := by
  induction files generalizing m s m' s' with
  | nil => simp [migrateRun]
  | cons f rest ih =>
      rcases migrateOne_cases f with hc | ⟨hc, _, _, _⟩ | ⟨c, hc, hc23⟩
      · have ho : (migrateOne f).outcome = .skipped := by rw [hc]
        have hnf : (migrateOne f).newFile = f := by rw [hc]
        rw [migrateRun_skipped_exit f rest m s ho] at h
        rw [migrateRun_skipped_files f rest m s ho, hnf,
          migrateRun_skipped_migcount f _ m' s' ho]
        exact ih m (s + 1) h m' (s' + 1)
      · have ho : (migrateOne f).outcome = .migrated := by rw [hc]
        have ho2 : (migrateOne ((migrateOne f).newFile)).outcome = .skipped := by
          rw [migrateOne_migrated_then_skipped f ho]
        rw [migrateRun_migrated_exit f rest m s ho] at h
        rw [migrateRun_migrated_files f rest m s ho,
          migrateRun_skipped_migcount _ _ m' s' ho2]
        exact ih (m + 1) s h m' (s' + 1)
      · rw [migrateRun_fatal_exit f rest m s c hc] at h
        rcases hc23 with h2 | h2 <;> omega

/-- Claim C8 (as confirmed): after a run of the bulk migration tool that
completed with exit code 0, a second run over the resulting directory
migrates zero records; and every record whose JSON already contains a
truthy `provider_tokens_enc` is counted as skipped and left untouched. -/
theorem migration_idempotent (files : List MigFile)
    (h : (migrateRun files 0 0).1 = 0) :
    (migrateRun (migrateRun files 0 0).2.2.2 0 0).2.1 = 0 ∧
    (∀ f : MigFile, f.readOk = true → f.hasEnc = true →
      migrateOne f = ⟨.skipped, f, false⟩) := by
  constructor
  · exact migrateRun_rerun files 0 0 h 0 0
  · intro f h1 h2
    simp [migrateOne, h1, h2]

/-- Evaluation of the idempotence theorem on a concrete two-record
directory: one record already encrypted, one freshly migrated. -/
theorem migration_idempotent_witness :
    (migrateRun (migrateRun
      [{ readOk := true, hasEnc := true, provider_tokens := [],
         backupOk := true, encryptOk := true, writeOk := true },
       { readOk := true, hasEnc := false,
         provider_tokens := [("github", ⟨"t", "h"⟩)],
         backupOk := true, encryptOk := true, writeOk := true }]
      0 0).2.2.2 0 0).2.1 = 0 := by
  exact (migration_idempotent
    [{ readOk := true, hasEnc := true, provider_tokens := [],
       backupOk := true, encryptOk := true, writeOk := true },
     { readOk := true, hasEnc := false,
       provider_tokens := [("github", ⟨"t", "h"⟩)],
       backupOk := true, encryptOk := true, writeOk := true }]
    (by decide)).1

/-- Counterexample to claim C7 as stated: a record whose timestamped
backup fails to be created is not aborted — the migration proceeds and the
original bytes are overwritten (outcome `migrated`, file changed, no
backup created). -/
theorem migration_backup_failure_still_overwrites :
    (migrateOne
      { readOk := true, hasEnc := false,
        provider_tokens := [("github", ⟨"t", "h"⟩)],
        backupOk := false, encryptOk := true,
        writeOk := true }).backupCreated = false ∧
    (migrateOne
      { readOk := true, hasEnc := false,
        provider_tokens := [("github", ⟨"t", "h"⟩)],
        backupOk := false, encryptOk := true,
        writeOk := true }).outcome = .migrated ∧
    (migrateOne
      { readOk := true, hasEnc := false,
        provider_tokens := [("github", ⟨"t", "h"⟩)],
        backupOk := false, encryptOk := true, writeOk := true }).newFile ≠
      { readOk := true, hasEnc := false,
        provider_tokens := [("github", ⟨"t", "h"⟩)],
        backupOk := false, encryptOk := true, writeOk := true } := by
  refine ⟨rfl, rfl, ?_⟩
  decide

/-- Claim C7 (as corrected): a backup failure is only warned about — the
record is still migrated and its original bytes are overwritten without a
backup copy; an encryption failure for a record terminates the whole batch
with exit code 2 before that record or any later record is modified; and
in general, once a record's step is fatal the batch stops with that
record's exit code and all later records are returned untouched. -/
theorem migration_failure_semantics :
    (∀ f : MigFile, f.readOk = true → f.hasEnc = false →
      filterTokens f.provider_tokens ≠ [] → f.encryptOk = true →
      f.writeOk = true → f.backupOk = false →
      (migrateOne f).backupCreated = false ∧
        (migrateOne f).outcome = .migrated ∧ (migrateOne f).newFile ≠ f) ∧
    (∀ f : MigFile, f.readOk = true → f.hasEnc = false →
      filterTokens f.provider_tokens ≠ [] → f.encryptOk = false →
      migrateOne f = ⟨.fatal 2, f, false⟩) ∧
    (∀ (f : MigFile) (rest : List MigFile) (m s c : Nat),
      (migrateOne f).outcome = .fatal c →
      migrateRun (f :: rest) m s = (c, m, s, (migrateOne f).newFile :: rest)) := by
  refine ⟨?_, ?_, ?_⟩
  · intro f hr he h3 hk hw hb
    refine ⟨by simp [migrateOne, hr, he, h3, hk, hw, hb],
      by simp [migrateOne, hr, he, h3, hk, hw],
      ?_⟩
    intro heq
    have := congrArg MigFile.hasEnc heq
    simp [migrateOne, hr, he, h3, hk, hw] at this
  · intro f hr he h3 hk
    simp [migrateOne, hr, he, h3, hk]
  · exact migrateRun_cons_fatal

/-- Evaluation of the corrected-migration theorem on concrete records: a
backup-failing record that is still migrated, and an encryption-failing
record that stops a two-record batch with exit code 2 leaving the later
record untouched. -/
theorem migration_failure_semantics_witness :
    (migrateOne
      { readOk := true, hasEnc := false,
        provider_tokens := [("gitlab", ⟨"u", "g"⟩)],
        backupOk := false, encryptOk := true,
        writeOk := true }).outcome = .migrated ∧
    migrateOne
        { readOk := true, hasEnc := false,
          provider_tokens := [("gitlab", ⟨"u", "g"⟩)],
          backupOk := true, encryptOk := false, writeOk := true } =
      ⟨.fatal 2,
        { readOk := true, hasEnc := false,
          provider_tokens := [("gitlab", ⟨"u", "g"⟩)],
          backupOk := true, encryptOk := false, writeOk := true }, false⟩ ∧
    migrateRun
        [{ readOk := true, hasEnc := false,
           provider_tokens := [("gitlab", ⟨"u", "g"⟩)],
           backupOk := true, encryptOk := false, writeOk := true },
         { readOk := true, hasEnc := false,
           provider_tokens := [("github", ⟨"t", "h"⟩)],
           backupOk := true, encryptOk := true, writeOk := true }] 0 0 =
      (2, 0, 0,
        [{ readOk := true, hasEnc := false,
           provider_tokens := [("gitlab", ⟨"u", "g"⟩)],
           backupOk := true, encryptOk := false, writeOk := true },
         { readOk := true, hasEnc := false,
           provider_tokens := [("github", ⟨"t", "h"⟩)],
           backupOk := true, encryptOk := true, writeOk := true }]) := by
  refine ⟨?_, ?_, ?_⟩
  · exact (migration_failure_semantics.1
      { readOk := true, hasEnc := false,
        provider_tokens := [("gitlab", ⟨"u", "g"⟩)],
        backupOk := false, encryptOk := true, writeOk := true }
      rfl rfl (by decide) rfl rfl rfl).2.1
  · exact migration_failure_semantics.2.1
      { readOk := true, hasEnc := false,
        provider_tokens := [("gitlab", ⟨"u", "g"⟩)],
        backupOk := true, encryptOk := false, writeOk := true }
      rfl rfl (by decide) rfl
  · have h := migration_failure_semantics.2.2
      { readOk := true, hasEnc := false,
        provider_tokens := [("gitlab", ⟨"u", "g"⟩)],
        backupOk := true, encryptOk := false, writeOk := true }
      [{ readOk := true, hasEnc := false,
         provider_tokens := [("github", ⟨"t", "h"⟩)],
         backupOk := true, encryptOk := true, writeOk := true }] 0 0 2
      (by decide)
    simpa using h


/-- Shorthand for a conversation metadata value, used in the ownership
theorems below. -/
def mkMeta (cid : String) (uid : Option String) (t : String) :
    ConversationMetadata :=
  { conversation_id := cid
    user_id := uid
    title := t
    selected_repository := none }

/-- Counterexample to claim C1 as stated: the default
`ConversationValidator` does not honor the ownership contract.  With a
conversation owned by another user and a cookie header resolving to no
identity (the default implementation resolves no identity at all), the
contract demands `PermissionDenied`, but the default validator succeeds —
it returns the stored owner's id instead of failing. -/
theorem default_validator_violates_contract :
    ¬ HonorsContract (fun _ => none) (defaultValidate (fun cid => cid)) := by
  intro h
  have h1 := (h [("c", mkMeta "c" (some "alice") "t")] "c" "").1
  have h2 := h1 ⟨mkMeta "c" (some "alice") "t", by decide, by decide, by decide⟩
  exact absurd h2 (by decide)

/-- Claim C1 (as corrected): the ownership contract of steps 3 to 5 holds
for `CookieConversationValidator` under its cookie-and-JWT identity
resolution, for every store, conversation id and cookie header; the
default `ConversationValidator`, by contrast, performs no ownership check:
it always succeeds, returning the (possibly just created, ownerless)
metadata's owning user id. -/
theorem conversation_validator_ownership :
    (∀ (titleFn : String → String) (parseCookie : String → Option String)
        (decodeSub : Option String → Option String),
      HonorsContract (fun c => decodeSub (parseCookie c))
        (cookieValidate titleFn parseCookie decodeSub)) ∧
    (∀ (titleFn : String → String) (st : ConvStore) (cid cs : String),
      (defaultValidate titleFn st cid cs).1 =
        .ok (ensureMetadataExists titleFn st cid none).1.user_id) := by
  constructor
  · intro titleFn parseCookie decodeSub st cid cookiesStr
    refine ⟨?_, ?_, ?_⟩
    · rintro ⟨m, hm, hown, hne⟩
      simp [cookieValidate, ensureMetadataExists, hm, hown, hne]
    · intro hall
      cases hdg : dictGet st cid with
      | some m =>
          rcases hall m hdg with hnone | hsame
          · simp [cookieValidate, ensureMetadataExists, hdg, hnone]
          · simp [cookieValidate, ensureMetadataExists, hdg, ← hsame]
      | none =>
          simp [cookieValidate, ensureMetadataExists, hdg]
    · intro hdg
      refine ⟨mkMeta cid (decodeSub (parseCookie cookiesStr)) (titleFn cid),
        ?_, rfl, rfl⟩
      simp only [cookieValidate, ensureMetadataExists, hdg]
      simp only [ne_eq, not_true_eq_false, and_false, if_false, ite_self]
      have happ := dictGet_append_of_none st
        [(cid, mkMeta cid (decodeSub (parseCookie cookiesStr)) (titleFn cid))]
        cid hdg
      simp [mkMeta] at happ
      simp [happ, dictGet, mkMeta]
  · intro titleFn st cid cs
    rfl

/-- Evaluation of the corrected ownership theorem: a concrete owned
conversation is denied to a differently-identified caller via the cookie
validator, while the default validator succeeds on an empty store and
returns no identity. -/
theorem conversation_validator_ownership_witness :
    (cookieValidate (fun c => c) (fun _ => some "tok") (fun _ => some "bob")
      [("c", mkMeta "c" (some "alice") "t")] "c" "hdr").1 =
      .permissionDenied ∧
    (defaultValidate (fun c => c) [] "c" "").1 = .ok none := by
  constructor
  · exact (conversation_validator_ownership.1 (fun c => c)
      (fun _ => some "tok") (fun _ => some "bob")
      [("c", mkMeta "c" (some "alice") "t")] "c" "hdr").1
      ⟨mkMeta "c" (some "alice") "t", by decide, by decide, by decide⟩
  · exact conversation_validator_ownership.2 (fun c => c) [] "c" ""

end OpenHands
